import Mathlib

/-!
# Verification of the SIMT GPU-simulator core

A shallow embedding, in Lean 4, of the cycle-accurate SIMT processor
simulator (instruction decoder, execution unit, register file, direct-mapped
cache, coalescing memory controller, thread scheduler and execution engine),
together with proofs and refutations of its specified properties.

Machine words are modelled as `Nat` (with explicit `% 2^32` where the source
normalises with `>>> 0`), JavaScript numbers that may go negative (program
counters, register contents, sign-extended immediates) as `Int`, and
JavaScript arrays as lists of `Option Int` where `none` stands for a hole
(`undefined`): assigning past the end of a JavaScript array extends it,
which is observable behaviour the embedding must keep.
-/

namespace GpuSim

/-- The word modulus, 2^32. -/
def wordMod : Nat := 4294967296

/-- The sign-bit threshold, 2^31. -/
def signMod : Nat := 2147483648

/-- JavaScript `x >>> 0` applied to a possibly-negative number: reduce into
`[0, 2^32)`. `Int.emod` is already non-negative for a positive modulus. -/
def toUint32 (x : Int) : Nat := (x % (wordMod : Int)).toNat

/-- JavaScript `x | 0`: the signed 32-bit interpretation, in `[-2^31, 2^31)`. -/
def toInt32 (x : Int) : Int :=
  let u := toUint32 x
  if u < signMod then (u : Int) else (u : Int) - (wordMod : Int)

/-- The sign bit of the 32-bit pattern of `x` (JS `(x & 0x80000000) !== 0`). -/
def signBit (x : Int) : Bool := decide (signMod ≤ toUint32 x)

/-! ## JavaScript arrays

`JSMem` models a JavaScript `number[]`: a finite list whose entries are
`some v` for stored numbers and `none` for holes (reads of holes or reads
past the end give `undefined`, modelled as `none`). Assignment past the end
extends the array, filling the gap with holes — exactly JS semantics. -/

/-- A JavaScript array of words. -/
abbrev JSMem := List (Option Int)

/-- JavaScript indexing `m[i]`: `undefined` (`none`) past the end or at a hole. -/
def jsGet (m : JSMem) (i : Nat) : Option Int := (m.get? i).getD none

/-- JavaScript assignment `m[i] = v`: in-bounds update, or extension with holes. -/
def jsSet (m : JSMem) (i : Nat) (v : Int) : JSMem :=
  if i < m.length then m.set i (some v)
  else m ++ List.replicate (i - m.length) none ++ [some v]

/-- The array `new Array(n).fill(0)`. -/
def jsZeros (n : Nat) : JSMem := List.replicate n (some 0)

/-- Fuelled floor-log2 (structurally recursive so that it evaluates inside
the kernel; `Nat.log2` is defined by well-founded recursion and does not). -/
def log2Fuel : Nat → Nat → Nat
  | 0, _ => 0
  | fuel + 1, n => if n < 2 then 0 else log2Fuel fuel (n / 2) + 1

/-- Truncated `Math.log2(n)` for the cache's shift count: `⌊log₂ n⌋` for
positive `n` (JS `>>` truncates a fractional shift count, and the fractional
part of `2 + Math.log2 n` is below 1, so truncation is the floor). -/
def jsLog2 (n : Nat) : Nat := log2Fuel n n

/-! ## Instruction set (`types.ts`, `decoder.ts`)

The source `Instruction` is `{opcode: string, rd?, rs1?, rs2?, immediate?}`;
the opcode strings produced by the decoder form the closed set below, and the
optional fields are kept as `Option` because the executor tests them against
`undefined` (which matters: the decoder never fills `rs2` for `STR`). -/

inductive Opcode where
  | NOP | CONST | ADD | SUB | MUL | DIV | AND | OR | XOR
  | LDR | STR | BR | BRz | BRnz | BRn | BRp | CMP | RET
  deriving DecidableEq, Repr

structure Instruction where
  opcode : Opcode
  rd : Option Nat := none
  rs1 : Option Nat := none
  rs2 : Option Nat := none
  immediate : Option Int := none
  deriving DecidableEq, Repr

namespace InstructionDecoder

/-- Bits 23–20 of the word. -/
def getRd (instruction : Nat) : Nat := (instruction >>> 20) % 16

/-- Bits 19–16 of the word. -/
def getRs1 (instruction : Nat) : Nat := (instruction >>> 16) % 16

/-- Bits 15–12 of the word. -/
def getRs2 (instruction : Nat) : Nat := (instruction >>> 12) % 16

/-- Bits 15–0, sign-extended from bit 15 (`imm | 0xffff0000` in JS yields the
negative signed value when bit 15 is set). -/
def getImmediate (instruction : Nat) : Int :=
  let imm := instruction % 65536
  if 32768 ≤ imm then (imm : Int) - 65536 else (imm : Int)

/-- The opcode byte, bits 31–24, mapped through the number→string table
(`opcodeToString`): unknown bytes fall to `NOP`. -/
def opcodeToString (opcode : Nat) : Opcode :=
  if opcode = 0x00 then .NOP
  else if opcode = 0x01 then .CONST
  else if opcode = 0x02 then .ADD
  else if opcode = 0x03 then .SUB
  else if opcode = 0x04 then .MUL
  else if opcode = 0x05 then .DIV
  else if opcode = 0x06 then .AND
  else if opcode = 0x07 then .OR
  else if opcode = 0x08 then .XOR
  else if opcode = 0x09 then .LDR
  else if opcode = 0x0a then .STR
  else if opcode = 0x0b then .BR
  else if opcode = 0x0c then .BRz
  else if opcode = 0x0d then .BRnz
  else if opcode = 0x0e then .BRn
  else if opcode = 0x0f then .BRp
  else if opcode = 0x10 then .CMP
  else if opcode = 0x11 then .RET
  else .NOP

/-- The byte `(instruction >>> 24) & 0xff` fed through the table. -/
def getOpcode (instruction : Nat) : Opcode :=
  opcodeToString ((instruction >>> 24) % 256)

/-- Source `InstructionDecoder.decode`: total on every 32-bit word. -/
def decode (instruction : Nat) : Instruction :=
  match getOpcode instruction with
  | .CONST =>
      { opcode := .CONST, rd := some (getRd instruction),
        immediate := some (getImmediate instruction) }
  | .ADD => decodeALUOp .ADD instruction
  | .SUB => decodeALUOp .SUB instruction
  | .MUL => decodeALUOp .MUL instruction
  | .DIV => decodeALUOp .DIV instruction
  | .AND => decodeALUOp .AND instruction
  | .OR => decodeALUOp .OR instruction
  | .XOR => decodeALUOp .XOR instruction
  | .LDR =>
      { opcode := .LDR, rd := some (getRd instruction),
        rs1 := some (getRs1 instruction),
        immediate := some (getImmediate instruction) }
  | .STR =>
      { opcode := .STR, rd := some (getRd instruction),
        rs1 := some (getRs1 instruction),
        immediate := some (getImmediate instruction) }
  | .BR => decodeBranchOp .BR instruction
  | .BRz => decodeBranchOp .BRz instruction
  | .BRnz => decodeBranchOp .BRnz instruction
  | .BRn => decodeBranchOp .BRn instruction
  | .BRp => decodeBranchOp .BRp instruction
  | .CMP =>
      { opcode := .CMP, rs1 := some (getRs1 instruction),
        rs2 := some (getRs2 instruction) }
  | .RET => { opcode := .RET }
  | .NOP => { opcode := .NOP }
where
  /-- The shared `{opcode, rd, rs1, rs2}` shape for the arithmetic class. -/
  decodeALUOp (op : Opcode) (instruction : Nat) : Instruction :=
    { opcode := op, rd := some (getRd instruction),
      rs1 := some (getRs1 instruction), rs2 := some (getRs2 instruction) }
  /-- The shared `{opcode, rs1, immediate}` shape for the branch class. -/
  decodeBranchOp (op : Opcode) (instruction : Nat) : Instruction :=
    { opcode := op, rs1 := some (getRs1 instruction),
      immediate := some (getImmediate instruction) }

end InstructionDecoder

/-! ## Register file (`register-file.ts`)

A map from thread id to its 16 registers. Register contents are JavaScript
numbers that need not be reduced words (`CONST` stores a sign-extended — hence
possibly negative — immediate; the bitwise ALU results are `Int32`), so they
are modelled as `Int`. The map is modelled as a function, since the source
only ever gets and sets single keys (and clears the whole map). -/

abbrev RegisterFile := Nat → Option (List Int)

namespace RegisterFile

def numRegisters : Nat := 16

def empty : RegisterFile := fun _ => none

/-- Allocate 16 zeroed registers if the thread is absent (idempotent). -/
def initializeThread (rf : RegisterFile) (threadId : Nat) : RegisterFile :=
  match rf threadId with
  | some _ => rf
  | none => fun t =>
      if t = threadId then some (List.replicate numRegisters 0) else rf t

/-- Read a register: 0 for an absent thread or out-of-range index. (The
source also lazily initializes an absent thread here; every call site below
reads only threads already initialized by `initializeBlocks`, so the pure
reading is observationally the same.) -/
def read (rf : RegisterFile) (threadId reg : Nat) : Int :=
  match rf threadId with
  | none => 0
  | some regs => if reg < numRegisters then regs.getD reg 0 else 0

/-- Write a register: initializes an absent thread, ignores an out-of-range
index. -/
def write (rf : RegisterFile) (threadId reg : Nat) (value : Int) : RegisterFile :=
  let rf' := initializeThread rf threadId
  if reg < numRegisters then
    fun t =>
      if t = threadId then some (((rf' threadId).getD []).set reg value)
      else rf' t
  else rf'

/-- Snapshot of a thread's registers (initializing it when absent). -/
def getRegisters (rf : RegisterFile) (threadId : Nat) : List Int :=
  ((initializeThread rf threadId) threadId).getD []

/-- Source `clearAll`: `this.registers.clear()`. -/
def clearAll (_rf : RegisterFile) : RegisterFile := empty

end RegisterFile

/-! ## Execution unit (`execution-unit.ts`) -/

structure ALUResult where
  result : Int
  zero : Bool
  negative : Bool
  overflow : Bool
  deriving DecidableEq, Repr

namespace ExecutionUnit

/-- Source `add`: `(a + b) >>> 0`. -/
def add (a b : Int) : Int := (toUint32 (a + b) : Int)

/-- Source `subtract`: `(a - b) >>> 0`. -/
def subtract (a b : Int) : Int := (toUint32 (a - b) : Int)

/-- Source `multiply`: `(a * b) >>> 0`. -/
def multiply (a b : Int) : Int := (toUint32 (a * b) : Int)

/-- Signed division with floor, 0 on a zero divisor, normalized `>>> 0`.
`Int.fdiv` is floor division, matching `Math.floor(x / y)` on exact integer
quotients (both operands are in `Int32` range, so the JS double division is
exact enough for the floor to agree). -/
def divide (a b : Int) : Int :=
  if b = 0 then 0 else (toUint32 ((toInt32 a).fdiv (toInt32 b)) : Int)

/-- Source `checkAddOverflow`: `(a > 0 && b > 0 && r < 0) || (a < 0 && b < 0 && r > 0)` on the `| 0`
views — note the strict inequalities. -/
def checkAddOverflow (a b result : Int) : Bool :=
  (decide (0 < toInt32 a) && decide (0 < toInt32 b) && decide (toInt32 result < 0)) ||
  (decide (toInt32 a < 0) && decide (toInt32 b < 0) && decide (0 < toInt32 result))

/-- Source `checkSubOverflow`: `(a > 0 && b < 0 && r < 0) || (a < 0 && b > 0 && r > 0)` on the `| 0`
views. -/
def checkSubOverflow (a b result : Int) : Bool :=
  (decide (0 < toInt32 a) && decide (toInt32 b < 0) && decide (toInt32 result < 0)) ||
  (decide (toInt32 a < 0) && decide (0 < toInt32 b) && decide (0 < toInt32 result))

/-- Recompute the signed product and compare. (The source compares against
the JS double product; on operands whose exact product exceeds 2^53 the
double is rounded, which this exact model ignores — no claim below concerns
MUL.) -/
def checkMulOverflow (a b result : Int) : Bool :=
  decide (toInt32 result ≠ toInt32 a * toInt32 b)

/-- JS 32-bit bitwise op: operate on the `>>> 0` patterns, view as `Int32`. -/
def bitwise32 (f : Nat → Nat → Nat) (a b : Int) : Int :=
  toInt32 ((f (toUint32 a) (toUint32 b) : Nat) : Int)

/-- Source `ExecutionUnit.executeALU`. `rs2` holds a register index when `< 16`,
otherwise it is taken as a raw value (the source's `RegisterIndex | number`
convention); the opcode ranges over the decoded opcodes. -/
def executeALU (rf : RegisterFile) (threadId : Nat) (op : Opcode)
    (rs1 rs2 : Nat) : ALUResult :=
  let val1 := RegisterFile.read rf threadId rs1
  let val2 : Int :=
    if rs2 < 16 then RegisterFile.read rf threadId rs2 else (rs2 : Int)
  let (result, overflow) : Int × Bool :=
    match op with
    | .ADD => (add val1 val2, checkAddOverflow val1 val2 (add val1 val2))
    | .SUB => (subtract val1 val2, checkSubOverflow val1 val2 (subtract val1 val2))
    | .MUL => (multiply val1 val2, checkMulOverflow val1 val2 (multiply val1 val2))
    | .DIV => (divide val1 val2, false)
    | .AND => (bitwise32 Nat.land val1 val2, false)
    | .OR => (bitwise32 Nat.lor val1 val2, false)
    | .XOR => (bitwise32 Nat.xor val1 val2, false)
    | _ => (0, false)
  { result := result, zero := decide (result = 0),
    negative := signBit result, overflow := overflow }

end ExecutionUnit

/-! ## Direct-mapped cache (`cache.ts`) -/

structure MemoryConfig where
  globalMemorySize : Nat
  cacheSize : Nat
  lineSize : Nat
  latency : Nat := 0
  deriving DecidableEq, Repr

structure CacheLine where
  tag : Nat
  data : List (Option Int)
  valid : Bool
  dirty : Bool
  deriving DecidableEq, Repr, Inhabited

structure CacheState where
  lines : List CacheLine
  hits : Nat
  misses : Nat
  deriving DecidableEq, Repr

structure CacheReadResult where
  data : Option Int
  hit : Bool
  deriving DecidableEq, Repr

structure CacheStats where
  hits : Nat
  misses : Nat
  hitRate : ℚ
  deriving DecidableEq, Repr

namespace Cache

/-- The constructor: `cacheSize` lines, each invalid with `lineSize` zeroed
words. -/
def init (config : MemoryConfig) : CacheState :=
  { lines := List.replicate config.cacheSize
      { tag := 0, data := List.replicate config.lineSize (some 0),
        valid := false, dirty := false },
    hits := 0, misses := 0 }

/-- Line index `(address >> 2) % cacheSize`. -/
def getLineIndex (config : MemoryConfig) (address : Nat) : Nat :=
  (address >>> 2) % config.cacheSize

/-- Tag `address >> (2 + Math.log2(cacheSize))`: the shift count is truncated and
masked to 5 bits as JS `>>` does. -/
def getTag (config : MemoryConfig) (address : Nat) : Nat :=
  address >>> ((2 + jsLog2 config.cacheSize) % 32)

/-- Offset `address % lineSize`. -/
def getOffset (config : MemoryConfig) (address : Nat) : Nat :=
  address % config.lineSize

/-- The dirty write-back loop: `memory[oldBase + i] = line.data[i]` for each
in-bounds `oldBase + i`, `i < lineSize`. -/
def writeBackWords (base n : Nat) (data : List (Option Int)) (memory : JSMem) : JSMem :=
  (List.range n).foldl
    (fun mem i =>
      if base + i < mem.length then mem.set (base + i) (data.getD i none) else mem)
    memory

/-- The line-fill loop: word `i` becomes `memory[base + i]` in bounds, else 0. -/
def loadWords (base n : Nat) (memory : JSMem) : List (Option Int) :=
  (List.range n).map
    (fun i => if base + i < memory.length then jsGet memory (base + i) else some 0)

/-- Source `Cache.loadLine`: write the resident line back if valid and dirty — at
base address `(line.tag << 2) | (lineIndex << 2)` — then fill the slot from
the 4-aligned base of `address`. -/
def loadLine (config : MemoryConfig) (c : CacheState) (address : Nat)
    (memory : JSMem) : CacheState × JSMem :=
  let lineIndex := getLineIndex config address
  let tag := getTag config address
  let baseAddress := (address >>> 2) <<< 2
  let line := c.lines.getD lineIndex default
  let memory :=
    if line.valid && line.dirty then
      writeBackWords ((line.tag <<< 2) ||| (lineIndex <<< 2)) config.lineSize line.data memory
    else memory
  let line' : CacheLine :=
    { tag := tag, data := loadWords baseAddress config.lineSize memory,
      valid := true, dirty := false }
  ({ c with lines := c.lines.set lineIndex line' }, memory)

/-- Source `Cache.read`: hit returns the cached word; miss loads the line first. -/
def read (config : MemoryConfig) (c : CacheState) (address : Nat)
    (memory : JSMem) : CacheReadResult × CacheState × JSMem :=
  let lineIndex := getLineIndex config address
  let tag := getTag config address
  let offset := getOffset config address
  let line := c.lines.getD lineIndex default
  if line.valid && line.tag == tag then
    ({ data := line.data.getD offset none, hit := true },
     { c with hits := c.hits + 1 }, memory)
  else
    let r := loadLine config { c with misses := c.misses + 1 } address memory
    ({ data := (r.1.lines.getD lineIndex default).data.getD offset none, hit := false },
     r.1, r.2)

/-- Source `Cache.write`: update the cached word, mark the line dirty, and
write through to memory (`memory[address] = data`, unguarded). -/
def write (config : MemoryConfig) (c : CacheState) (address : Nat) (data : Int)
    (memory : JSMem) : CacheState × JSMem :=
  let lineIndex := getLineIndex config address
  let tag := getTag config address
  let offset := getOffset config address
  let line := c.lines.getD lineIndex default
  if line.valid && line.tag == tag then
    let line' := { line with data := line.data.set offset (some data), dirty := true }
    ({ c with lines := c.lines.set lineIndex line', hits := c.hits + 1 },
     jsSet memory address data)
  else
    let r := loadLine config { c with misses := c.misses + 1 } address memory
    let cached := r.1.lines.getD lineIndex default
    let line' := { cached with data := cached.data.set offset (some data), dirty := true }
    ({ r.1 with lines := r.1.lines.set lineIndex line' }, jsSet r.2 address data)

/-- Source `Cache.getStats`. -/
def getStats (c : CacheState) : CacheStats :=
  let total := c.hits + c.misses
  { hits := c.hits, misses := c.misses,
    hitRate := if 0 < total then (c.hits : ℚ) / (total : ℚ) else 0 }

/-- Source `Cache.resetStats`: zero the counters, leave the lines alone. -/
def resetStats (c : CacheState) : CacheState := { c with hits := 0, misses := 0 }

end Cache

/-- One cache access, as issued by a client. -/
inductive CacheOp where
  | read (address : Nat)
  | write (address : Nat) (data : Int)
  deriving DecidableEq, Repr

/-- Run one access against cache and memory. -/
def applyCacheOp (config : MemoryConfig) : CacheState × JSMem → CacheOp → CacheState × JSMem
  | (c, m), .read a => let r := Cache.read config c a m; (r.2.1, r.2.2)
  | (c, m), .write a v => Cache.write config c a v m

/-- Run a sequence of accesses. -/
def applyCacheOps (config : MemoryConfig) (ops : List CacheOp)
    (s : CacheState × JSMem) : CacheState × JSMem :=
  ops.foldl (applyCacheOp config) s

/-! ## Memory controller (`memory-controller.ts`)

The controller owns its own flat memory array (separate from the engine's
array — the engine passes its own array to the cache and lets the controller
service the queued requests against the controller's copy). The response
queue is a JS `Map` keyed by the synthetic request id; the source only gets
and sets single keys, so it is modelled as a function. -/

structure MemoryRequest where
  address : Nat
  data : Option Int := none
  write : Bool
  threadId : Nat
  blockId : Nat
  deriving DecidableEq, Repr

structure MemoryResponse where
  data : Option Int
  valid : Bool
  deriving DecidableEq, Repr

abbrev ResponseQueue := Nat → Option MemoryResponse

structure MCState where
  memory : JSMem
  pendingRequests : List MemoryRequest
  responseQueue : ResponseQueue

namespace MemoryController

/-- The constructor: zeroed memory, nothing pending. -/
def init (config : MemoryConfig) : MCState :=
  { memory := jsZeros config.globalMemorySize, pendingRequests := [],
    responseQueue := fun _ => none }

/-- Source `request(req)`: enqueue. -/
def request (s : MCState) (req : MemoryRequest) : MCState :=
  { s with pendingRequests := s.pendingRequests ++ [req] }

/-- The synthetic id `threadId * 1_000_000 + blockId * 10_000 + address`. -/
def getRequestId (req : MemoryRequest) : Nat :=
  req.threadId * 1000000 + req.blockId * 10000 + req.address

/-- Source `canCoalesce`: `Math.abs(a.address - b.address) <= 4 && a.write === b.write`. -/
def canCoalesce (a b : MemoryRequest) : Bool :=
  decide (((a.address : Int) - (b.address : Int)).natAbs ≤ 4) &&
  (a.write == b.write)

/-- The body shared by both halves of `processRequests`: commit a write
(`memory[req.address] = req.data`, unguarded, skipped when the data is
`undefined`) and record the response under the request's id. -/
def commit (mem : JSMem) (rq : ResponseQueue) (req : MemoryRequest) :
    JSMem × ResponseQueue :=
  let mem :=
    if req.write then
      match req.data with
      | some d => jsSet mem req.address d
      | none => mem
    else mem
  let resp : MemoryResponse :=
    { data := if req.write then req.data else jsGet mem req.address,
      valid := true }
  (mem, fun k => if k = getRequestId req then some resp else rq k)

/-- Commit a list of requests one after the other, in list order. -/
def commitAll (reqs : List MemoryRequest) (mem : JSMem) (rq : ResponseQueue) :
    JSMem × ResponseQueue :=
  reqs.foldl (fun p r => commit p.1 p.2 r) (mem, rq)

/-- The coalescing scan of `processRequests`: a request that coalesces with
the current group is committed immediately; otherwise the current group
leader is appended to `coalesced` and the request starts a new group. The
surviving leaders are returned to be committed afterwards. -/
def processLoop : List MemoryRequest → Option MemoryRequest →
    List MemoryRequest → JSMem → ResponseQueue →
    List MemoryRequest × JSMem × ResponseQueue
  | [], current, coalesced, mem, rq =>
      (coalesced ++ current.toList, mem, rq)
  | req :: rest, current, coalesced, mem, rq =>
      match current with
      | some c =>
          if canCoalesce c req then
            let p := commit mem rq req
            processLoop rest (some c) coalesced p.1 p.2
          else
            processLoop rest (some req) (coalesced ++ [c]) mem rq
      | none => processLoop rest (some req) coalesced mem rq

/-- Source `sort((a, b) => a.address - b.address)`: stable (insertion) sort by
address, as JS `Array.prototype.sort` is specified to be. -/
def sortByAddress (reqs : List MemoryRequest) : List MemoryRequest :=
  List.insertionSort (fun a b => a.address ≤ b.address) reqs

/-- Source `processRequests()`: sort, scan-and-coalesce, then commit the group
leaders; the pending queue empties. -/
def processRequests (s : MCState) : MCState :=
  let scanned := processLoop (sortByAddress s.pendingRequests) none []
      s.memory s.responseQueue
  let final := commitAll scanned.1 scanned.2.1 scanned.2.2
  { memory := final.1, pendingRequests := [], responseQueue := final.2 }

/-- Direct (non-queued) read: bounds-checked against the current array
length, 0 when out of range. -/
def read (s : MCState) (address : Nat) : Option Int :=
  if address < s.memory.length then jsGet s.memory address else some 0

/-- Direct (non-queued) write: dropped when out of range of the current
array length. -/
def write (s : MCState) (address : Nat) (data : Int) : MCState :=
  if address < s.memory.length then { s with memory := jsSet s.memory address data }
  else s

/-- Modelled from the spec: "servicing the requests one by one without any
coalescing" — each pending request is committed individually, in queue
order, with the same per-request commit the source uses. This is the
baseline that claim C3 compares `processRequests` against. -/
def serviceIndividually (reqs : List MemoryRequest) (mem : JSMem)
    (rq : ResponseQueue) : JSMem × ResponseQueue :=
  commitAll reqs mem rq

end MemoryController

/-! ## Thread scheduler (`thread-scheduler.ts`) -/

structure ThreadState where
  id : Nat
  blockId : Nat
  pc : Int
  registers : List Int
  active : Bool
  deriving DecidableEq, Repr, Inhabited

structure BlockState where
  id : Nat
  threads : List ThreadState
  deriving DecidableEq, Repr

structure Warp where
  threads : List ThreadState
  active : Bool
  pc : Int
  deriving DecidableEq, Repr, Inhabited

structure SchedulerState where
  warps : List Warp
  currentWarpIndex : Nat
  cycle : Nat
  deriving DecidableEq, Repr

namespace ThreadScheduler

def warpSize : Nat := 32

def init : SchedulerState := { warps := [], currentWarpIndex := 0, cycle := 0 }

/-- The fuelled worker for `splitWarps` (each step consumes at least one
thread, so `l.length` fuel always suffices; structural recursion on the fuel
keeps it kernel-reducible). -/
def splitWarpsAux : Nat → List ThreadState → List (List ThreadState)
  | 0, _ => []
  | _, [] => []
  | fuel + 1, t :: ts => (t :: ts.take (warpSize - 1)) :: splitWarpsAux fuel (ts.drop (warpSize - 1))

/-- Split a block's threads into consecutive groups of `warpSize` (the last
group may be smaller). -/
def splitWarps (l : List ThreadState) : List (List ThreadState) :=
  splitWarpsAux l.length l

/-- Source `initializeBlocks`: one warp per 32-thread slice of each block, all
marked active, warp pc taken from the first thread (`?.pc || 0`). -/
def initializeBlocks (blocks : List BlockState) : SchedulerState :=
  { warps := (blocks.map fun b =>
      (splitWarps b.threads).map fun ws =>
        { threads := ws, active := true,
          pc := (ws.head?.map (·.pc)).getD 0 }).flatten,
    currentWarpIndex := 0, cycle := 0 }

/-- The round-robin attempt loop: look at `warps[idx]`, advance the index,
return the warp when it is active with at least one active thread; give up
after `warps.length` attempts. Returns the selected warp's index together
with the index cursor after selection. -/
def getNextWarpAux (warps : List Warp) : Nat → Nat → Option (Nat × Nat)
  | _, 0 => none
  | idx, attemptsLeft + 1 =>
      let w := warps.getD idx default
      let idx' := (idx + 1) % warps.length
      if w.active && w.threads.any (·.active) then some (idx, idx')
      else getNextWarpAux warps idx' attemptsLeft

/-- Source `getNextWarp()`: round-robin selection; `none` when every warp is
exhausted (in which case the cursor has cycled back to its old value). -/
def getNextWarp (s : SchedulerState) : Option (Nat × SchedulerState) :=
  if s.warps.length = 0 then none
  else
    match getNextWarpAux s.warps s.currentWarpIndex s.warps.length with
    | some (sel, idx') => some (sel, { s with currentWarpIndex := idx' })
    | none => none

/-- Source `isComplete()`: every warp inactive or devoid of active threads. -/
def isComplete (s : SchedulerState) : Bool :=
  s.warps.all fun w => !w.active || w.threads.all (fun t => !t.active)

/-- Source `tick()`. -/
def tick (s : SchedulerState) : SchedulerState := { s with cycle := s.cycle + 1 }

/-- Source `reset()`. -/
def reset (_s : SchedulerState) : SchedulerState := init

end ThreadScheduler

/-! ## Instruction execution (`instructions.ts`)

`executeInstruction` receives the execution context and produces the next
program counter, a branch flag and an optional memory access; it can also
mutate the register file, the cache and the (engine's) memory array, so the
embedding returns those alongside the result. -/

structure MemoryAccess where
  address : Nat
  data : Option Int
  write : Bool
  deriving DecidableEq, Repr

structure InstructionResult where
  nextPC : Int
  shouldBranch : Bool
  memoryAccess : Option MemoryAccess := none
  deriving DecidableEq, Repr

/-- The pieces of `InstructionContext` an instruction can update. -/
structure ExecEffects where
  result : InstructionResult
  rf : RegisterFile
  cache : CacheState
  memory : JSMem

namespace Instructions

/-- Source `executeCONST` (`CONST rd, #imm`): store the immediate when both fields are present. -/
def executeCONST (instruction : Instruction) (thread : ThreadState)
    (rf : RegisterFile) (cache : CacheState) (memory : JSMem) : ExecEffects :=
  let rf :=
    match instruction.rd, instruction.immediate with
    | some rd, some imm => RegisterFile.write rf thread.id rd imm
    | _, _ => rf
  { result := { nextPC := thread.pc + 1, shouldBranch := false }, rf, cache, memory }

/-- ALU class: run the execution unit and store the result when all three
register fields are present. -/
def executeALUInstr (instruction : Instruction) (thread : ThreadState)
    (rf : RegisterFile) (cache : CacheState) (memory : JSMem) : ExecEffects :=
  let rf :=
    match instruction.rd, instruction.rs1, instruction.rs2 with
    | some rd, some rs1, some rs2 =>
        let r := ExecutionUnit.executeALU rf thread.id instruction.opcode rs1 rs2
        RegisterFile.write rf thread.id rd r.result
    | _, _, _ => rf
  { result := { nextPC := thread.pc + 1, shouldBranch := false }, rf, cache, memory }

/-- Source `executeLDR` (`LDR rd, [rs1 + imm]`): address is `(base + offset) >>> 0`; the value read
through the cache is stored in `rd` and a read request is reported. (The
cached value is always present — `some` — whenever the memory array has no
holes, which holds in every engine-reachable state; the `getD 0` below is
unreachable there.) -/
def executeLDR (config : MemoryConfig) (instruction : Instruction)
    (thread : ThreadState) (rf : RegisterFile) (cache : CacheState)
    (memory : JSMem) : ExecEffects :=
  match instruction.rd, instruction.rs1 with
  | some rd, some rs1 =>
      let baseAddr := RegisterFile.read rf thread.id rs1
      let offset := instruction.immediate.getD 0
      let address := toUint32 (baseAddr + offset)
      let r := Cache.read config cache address memory
      let rf := RegisterFile.write rf thread.id rd (r.1.data.getD 0)
      { result := { nextPC := thread.pc + 1, shouldBranch := false,
                    memoryAccess := some { address, data := r.1.data, write := false } },
        rf, cache := r.2.1, memory := r.2.2 }
  | _, _ =>
      { result := { nextPC := thread.pc + 1, shouldBranch := false }, rf, cache, memory }

/-- Source `executeSTR` (`STR [rs1 + imm], rs2`): guarded on `rs1` AND `rs2` being present — the
decoder never fills `rs2` for STR, so on decoded programs this always takes
the fall-through branch and the store is a no-op. -/
def executeSTR (config : MemoryConfig) (instruction : Instruction)
    (thread : ThreadState) (rf : RegisterFile) (cache : CacheState)
    (memory : JSMem) : ExecEffects :=
  match instruction.rs1, instruction.rs2 with
  | some rs1, some rs2 =>
      let baseAddr := RegisterFile.read rf thread.id rs1
      let offset := instruction.immediate.getD 0
      let address := toUint32 (baseAddr + offset)
      let data := RegisterFile.read rf thread.id rs2
      let w := Cache.write config cache address data memory
      { result := { nextPC := thread.pc + 1, shouldBranch := false,
                    memoryAccess := some { address, data := some data, write := true } },
        rf, cache := w.1, memory := w.2 }
  | _, _ =>
      { result := { nextPC := thread.pc + 1, shouldBranch := false }, rf, cache, memory }

/-- Branch class: `BR` always branches; the conditional forms re-read
`rs1`'s value and test zero / sign-bit directly. A taken branch with an
immediate sets `pc + immediate` — with no lower-bound check, so a backward
branch can produce a negative pc. -/
def executeBranch (instruction : Instruction) (thread : ThreadState)
    (rf : RegisterFile) : InstructionResult :=
  let shouldBranch : Bool :=
    if instruction.opcode = .BR then true
    else
      match instruction.rs1 with
      | some rs1 =>
          let value := RegisterFile.read rf thread.id rs1
          let isZero := decide (value = 0)
          let isNegative := signBit value
          match instruction.opcode with
          | .BRz => isZero
          | .BRnz => !isZero
          | .BRn => isNegative
          | .BRp => !isNegative && !isZero
          | _ => false
      | none => false
  match shouldBranch, instruction.immediate with
  | true, some imm => { nextPC := thread.pc + imm, shouldBranch := true }
  | _, _ => { nextPC := thread.pc + 1, shouldBranch := false }

/-- Source `executeInstruction`: dispatch on the opcode. `RET` returns the same pc
with `shouldBranch` set and nothing else — it does not touch the active
flag. -/
def executeInstruction (config : MemoryConfig) (instruction : Instruction)
    (thread : ThreadState) (rf : RegisterFile) (cache : CacheState)
    (memory : JSMem) : ExecEffects :=
  match instruction.opcode with
  | .NOP =>
      { result := { nextPC := thread.pc + 1, shouldBranch := false }, rf, cache, memory }
  | .CONST => executeCONST instruction thread rf cache memory
  | .ADD | .SUB | .MUL | .DIV | .AND | .OR | .XOR =>
      executeALUInstr instruction thread rf cache memory
  | .LDR => executeLDR config instruction thread rf cache memory
  | .STR => executeSTR config instruction thread rf cache memory
  | .BR | .BRz | .BRnz | .BRn | .BRp =>
      { result := executeBranch instruction thread rf, rf, cache, memory }
  | .CMP =>
      -- `executeCMP` calls `executionUnit.compare` and discards the result;
      -- it has no observable effect beyond advancing the pc.
      { result := { nextPC := thread.pc + 1, shouldBranch := false }, rf, cache, memory }
  | .RET =>
      { result := { nextPC := thread.pc, shouldBranch := true }, rf, cache, memory }

end Instructions

/-! ## Execution engine (`ExecutionEngine`)

The engine owns the register file, scheduler, memory controller, cache,
instruction memory, its own global-memory array and the cycle counter.
Warps hold their threads by value here: in the source the scheduler's warps
alias the caller's `ThreadState` objects, each thread object sitting in
exactly one warp, and within the engine every mutation of a thread goes
through the selected warp — so per-warp value semantics is observationally
the same. The embedding fixes the cache-enabled configuration (the
default `enableCache !== false`). -/

structure EngineConfig where
  memory : MemoryConfig
  maxCycles : Option Nat := none
  deriving DecidableEq, Repr

structure EngineState where
  config : MemoryConfig
  regfile : RegisterFile
  sched : SchedulerState
  mc : MCState
  cache : CacheState
  instructionMemory : List Nat
  memory : JSMem
  cycle : Nat
  maxCycles : Nat

namespace ExecutionEngine

/-- The constructor. `config.maxCycles || 1000000` — note a configured 0 is
falsy in JS and also falls back to the default. -/
def init (config : EngineConfig) : EngineState :=
  { config := config.memory
    regfile := RegisterFile.empty
    sched := ThreadScheduler.init
    mc := MemoryController.init config.memory
    cache := Cache.init config.memory
    instructionMemory := []
    memory := jsZeros config.memory.globalMemorySize
    cycle := 0
    maxCycles :=
      match config.maxCycles with
      | none => 1000000
      | some 0 => 1000000
      | some n => n }

/-- Source `loadInstructions`: replace instruction memory. -/
def loadInstructions (s : EngineState) (instructions : List Nat) : EngineState :=
  { s with instructionMemory := instructions }

/-- Source `initializeBlocks` on the engine: allocate registers for every thread, refresh each
thread's register snapshot, and hand the blocks to the scheduler. -/
def initializeBlocks (s : EngineState) (blocks : List BlockState) : EngineState :=
  let rf := blocks.foldl
    (fun rf b => b.threads.foldl (fun rf t => RegisterFile.initializeThread rf t.id) rf)
    s.regfile
  let blocks := blocks.map fun b =>
    { b with threads := b.threads.map fun t =>
        { t with registers := RegisterFile.getRegisters rf t.id } }
  { s with regfile := rf, sched := ThreadScheduler.initializeBlocks blocks }

/-- The mutable context threaded through one warp's threads in a cycle. -/
structure CycleCtx where
  regfile : RegisterFile
  cache : CacheState
  memory : JSMem
  mc : MCState

/-- The per-thread body of `executeCycle`: deactivate (without fetching)
when the pc has run past instruction memory; otherwise fetch, decode,
execute, write the resulting pc back, refresh the register snapshot, and
enqueue any memory access. A negative pc is not past the end: the fetch
`instructionMemory[pc]` yields `undefined` there and decoding `undefined`
yields NOP (in JS, `undefined >>> 24` is 0). -/
def processThread (config : MemoryConfig) (imem : List Nat) (ctx : CycleCtx)
    (thread : ThreadState) : ThreadState × CycleCtx :=
  if (imem.length : Int) ≤ thread.pc then
    ({ thread with active := false }, ctx)
  else
    let instruction :=
      match (if 0 ≤ thread.pc then imem.get? thread.pc.toNat else none) with
      | some w => InstructionDecoder.decode w
      | none => { opcode := .NOP }
    let eff := Instructions.executeInstruction config instruction thread
      ctx.regfile ctx.cache ctx.memory
    let thread := { thread with
      pc := eff.result.nextPC,
      registers := RegisterFile.getRegisters eff.rf thread.id }
    let mc :=
      match eff.result.memoryAccess with
      | some ma => MemoryController.request ctx.mc
          { address := ma.address, data := ma.data, write := ma.write,
            threadId := thread.id, blockId := thread.blockId }
      | none => ctx.mc
    (thread, { regfile := eff.rf, cache := eff.cache, memory := eff.memory, mc })

/-- Process the selected warp's threads in order. The source filters the
active threads first and then iterates; since executing one thread never
changes a sibling's active flag, testing each thread's flag in place is
the same. -/
def processWarpThreads (config : MemoryConfig) (imem : List Nat)
    (threads : List ThreadState) (ctx : CycleCtx) : List ThreadState × CycleCtx :=
  threads.foldl
    (fun acc t =>
      if t.active then
        let r := processThread config imem acc.2 t
        (acc.1 ++ [r.1], r.2)
      else (acc.1 ++ [t], acc.2))
    ([], ctx)

/-- Source `executeCycle()`: false at the cycle bound or with no runnable warp;
otherwise run the warp, drain the memory controller, bump the counters and
report `!isComplete()`. -/
def executeCycle (s : EngineState) : Bool × EngineState :=
  if s.maxCycles ≤ s.cycle then (false, s)
  else
    match ThreadScheduler.getNextWarp s.sched with
    | none => (false, s)
    | some (sel, sched) =>
        let warp := sched.warps.getD sel default
        let r := processWarpThreads s.config s.instructionMemory warp.threads
          { regfile := s.regfile, cache := s.cache, memory := s.memory, mc := s.mc }
        let sched := { sched with warps := sched.warps.set sel { warp with threads := r.1 } }
        let mc := MemoryController.processRequests r.2.mc
        let sched := ThreadScheduler.tick sched
        (!(ThreadScheduler.isComplete sched),
         { s with regfile := r.2.regfile, cache := r.2.cache, memory := r.2.memory,
                  mc, sched, cycle := s.cycle + 1 })

/-- The `while (this.executeCycle()) {}` loop of `run()`, with explicit
fuel, also counting the calls to `executeCycle`. `runFuel_extra` below shows
`maxCycles - cycle + 1` fuel always suffices, so the fuelled function agrees
with the source's unbounded loop. -/
def runFuel : Nat → EngineState → EngineState × Nat
  | 0, s => (s, 0)
  | fuel + 1, s =>
      let r := executeCycle s
      if r.1 then
        let k := runFuel fuel r.2
        (k.1, k.2 + 1)
      else (r.2, 1)

/-- Source `run()`: loop `executeCycle` to completion; `.2` is the number of calls
to `executeCycle` the loop made. -/
def run (s : EngineState) : EngineState × Nat :=
  runFuel (s.maxCycles - s.cycle + 1) s

/-- Source `reset()` on the engine: zero the cycle counter, reset the scheduler, clear all
registers, zero the engine's memory array and reset the cache statistics —
and nothing else (instruction memory, cache lines and the memory
controller's own state are left as they are). -/
def reset (s : EngineState) : EngineState :=
  { s with cycle := 0,
           sched := ThreadScheduler.reset s.sched,
           regfile := RegisterFile.clearAll s.regfile,
           memory := jsZeros s.memory.length,
           cache := Cache.resetStats s.cache }

end ExecutionEngine

/-! ## Shared concrete fixtures for the claim theorems -/

namespace Fixtures

/-- A small memory geometry: 16 words, 2 cache lines of 4 words each. -/
def memCfg : MemoryConfig := { globalMemorySize := 16, cacheSize := 2, lineSize := 4 }

/-- One thread, id 0, in block 0, starting at pc 0. -/
def thread0 : ThreadState :=
  { id := 0, blockId := 0, pc := 0, registers := [], active := true }

/-- One block holding `thread0`. -/
def oneBlock : BlockState := { id := 0, threads := [thread0] }

/-- An engine with the given cycle bound that has loaded `prog` and
initialized the single one-thread block. -/
def engine (maxCycles : Option Nat) (prog : List Nat) : EngineState :=
  ExecutionEngine.initializeBlocks
    (ExecutionEngine.loadInstructions
      (ExecutionEngine.init { memory := memCfg, maxCycles := maxCycles }) prog)
    [oneBlock]

/-- The first thread of the first warp of an engine state. -/
def firstThread (s : EngineState) : ThreadState :=
  (s.sched.warps.getD 0 default).threads.getD 0 default

/-- The empty response queue. -/
def emptyQueue : ResponseQueue := fun _ => none

/-- An empty per-cycle context over the fixture geometry. -/
def emptyCtx : ExecutionEngine.CycleCtx :=
  { regfile := RegisterFile.empty, cache := Cache.init memCfg,
    memory := jsZeros 16, mc := MemoryController.init memCfg }

/-- Encoding of `RET` (opcode byte 0x11). -/
def retWord : Nat := 0x11000000

/-- Encoding of `BR #-1` (opcode byte 0x0b, immediate 0xffff, i.e. -1). -/
def brM1Word : Nat := 0x0B00FFFF

/-- Encoding of `LDR R0, [R0 + 0]` (opcode byte 0x09). -/
def ldrWord : Nat := 0x09000000

/-- A write request of value 1 to address 0 from thread 0. -/
def writeReqA : MemoryRequest :=
  { address := 0, data := some 1, write := true, threadId := 0, blockId := 0 }

/-- A write request of value 2 to address 0 from thread 1. -/
def writeReqB : MemoryRequest :=
  { address := 0, data := some 2, write := true, threadId := 1, blockId := 0 }

/-- A read request of address 0 from thread 0. -/
def readReqA : MemoryRequest :=
  { address := 0, data := none, write := false, threadId := 0, blockId := 0 }

/-- A read request of address 5 from thread 1. -/
def readReqB : MemoryRequest :=
  { address := 5, data := none, write := false, threadId := 1, blockId := 0 }

/-- A register file whose thread 0 has `R0 = R1 = 0x80000000` (the minimum
signed 32-bit value as an unsigned pattern) and `R2 = 0`. -/
def minIntRegs : RegisterFile := fun t =>
  if t = 0 then
    some [2147483648, 2147483648, 0, 0, 0, 0, 0, 0, 0, 0, 0, 0, 0, 0, 0, 0]
  else none

end Fixtures

/-! ## The claims -/

/-- C1. Claimed: when an active thread executes RET during `executeCycle`,
the thread halts — its pc does not advance and its active flag becomes
false, so it fetches no further instruction. The code keeps the pc in place
but never clears the active flag: `executeInstruction` on RET returns only
`{nextPC := thread.pc, shouldBranch := true}` (first conjunct, for every
context), and concretely, after one cycle of the one-instruction program
`[RET]` the thread still has `pc = 0` and `active = true`, `executeCycle`
reports the machine as not complete, and a second cycle leaves the thread in
the same state — it refetches RET every cycle until the cycle bound. -/
theorem C1_ret_leaves_thread_active :
    (∀ (config : MemoryConfig) (t : ThreadState) (rf : RegisterFile)
        (cache : CacheState) (mem : JSMem),
      Instructions.executeInstruction config { opcode := .RET } t rf cache mem =
        { result := { nextPC := t.pc, shouldBranch := true }, rf := rf,
          cache := cache, memory := mem })
    ∧ (Fixtures.firstThread
        (ExecutionEngine.executeCycle (Fixtures.engine (some 10) [Fixtures.retWord])).2).pc = 0
    ∧ (Fixtures.firstThread
        (ExecutionEngine.executeCycle (Fixtures.engine (some 10) [Fixtures.retWord])).2).active = true
    ∧ (ExecutionEngine.executeCycle (Fixtures.engine (some 10) [Fixtures.retWord])).1 = true
    ∧ (Fixtures.firstThread
        (ExecutionEngine.executeCycle
          (ExecutionEngine.executeCycle (Fixtures.engine (some 10) [Fixtures.retWord])).2).2).pc = 0
    ∧ (Fixtures.firstThread
        (ExecutionEngine.executeCycle
          (ExecutionEngine.executeCycle (Fixtures.engine (some 10) [Fixtures.retWord])).2).2).active = true := by
  exact ⟨fun _ _ _ _ _ => rfl, by decide, by decide, by decide, by decide, by decide⟩

/-- C2. Claimed: a cache read at an address returns the value most recently
written to that address, across intervening misses and evictions of other
addresses. Failing sequence (cache of 2 lines × 4 words over a 16-word
memory): `write 4 7; read 12; write 8 5; read 0; read 4` — the final read
of address 4 returns 5, not the 7 last written there, and memory word 4 also
holds 5. The dirty write-back in `loadLine` rebuilds the evicted line's base
address as `(tag << 2) | (lineIndex << 2)`, whose two fields overlap, so
evicting the dirty line of address 8 (tag 1, line index 0) writes its words
back over addresses 4..7 instead of 8..11 and clobbers address 4. -/
theorem C2_writeback_clobbers_last_write :
    (Cache.read Fixtures.memCfg
        (applyCacheOps Fixtures.memCfg [.write 4 7, .read 12, .write 8 5, .read 0]
          (Cache.init Fixtures.memCfg, jsZeros 16)).1
        4
        (applyCacheOps Fixtures.memCfg [.write 4 7, .read 12, .write 8 5, .read 0]
          (Cache.init Fixtures.memCfg, jsZeros 16)).2).1.data = some 5
    ∧ jsGet (applyCacheOps Fixtures.memCfg [.write 4 7, .read 12, .write 8 5, .read 0]
          (Cache.init Fixtures.memCfg, jsZeros 16)).2 4 = some 5
    ∧ (5 : Int) ≠ 7 := by
  exact ⟨by decide, by decide, by decide⟩

/-- C5. Claimed: the ADD overflow flag is true iff `a` and `b` have the same
sign bit and the wrapped sum has the opposite one — with the analogous law
for SUB — including at zero and the minimum signed value. The code tests
strict `> 0` / `< 0` on the signed views instead of sign bits, so at
`a = b = 0x80000000` (ADD: both sign bits set, wrapped sum 0 with sign bit
clear — a genuine negative overflow, flagged by the claimed law) it reports
no overflow; likewise for SUB at `a = 0, b = 0x80000000` (sign bits differ
and the result 0x80000000 has a sign bit different from `a`'s). -/
theorem C5_overflow_flags_miss_boundary_cases :
    (ExecutionUnit.executeALU Fixtures.minIntRegs 0 .ADD 0 1).overflow = false
    ∧ (ExecutionUnit.executeALU Fixtures.minIntRegs 0 .ADD 0 1).result = 0
    ∧ signBit 2147483648 = signBit 2147483648
    ∧ signBit ((toUint32 ((2147483648 : Int) + 2147483648) : Int)) = false
    ∧ signBit 2147483648 = true
    ∧ (ExecutionUnit.executeALU Fixtures.minIntRegs 0 .SUB 2 1).overflow = false
    ∧ (ExecutionUnit.executeALU Fixtures.minIntRegs 0 .SUB 2 1).result = 2147483648
    ∧ signBit 0 = false := by
  exact ⟨by decide, by decide, rfl, by decide, by decide, by decide, by decide, by decide⟩

/-- Opcode bytes from 18 through 255 all fall through to NOP in the
lookup table (checked by enumerating the byte). -/
theorem opcodeToString_unknown : ∀ b < 256, 18 ≤ b →
    InstructionDecoder.opcodeToString b = .NOP := by
  set_option maxRecDepth 4096 in decide

/-- C9. Confirmed: `decode` is a total Lean function of the input word —
there is no error case — and every opcode byte other than the 18 defined
opcodes 0x00 through 0x11 decodes to the bare NOP instruction. -/
theorem C9_decode_total_unknown_is_nop (w : Nat) (_hw : w < 4294967296)
    (hbyte : 0x12 ≤ (w >>> 24) % 256) :
    InstructionDecoder.decode w = { opcode := .NOP } := by
  have hop : InstructionDecoder.getOpcode w = .NOP :=
    opcodeToString_unknown _ (Nat.mod_lt _ (by norm_num)) hbyte
  unfold InstructionDecoder.decode
  rw [hop]

/-- Witness for C9 at the concrete word 0x12345678 (opcode byte 0x12, the
first undefined one). -/
theorem C9_decode_total_unknown_is_nop_witness :
    InstructionDecoder.decode 0x12345678 = { opcode := .NOP } :=
  C9_decode_total_unknown_is_nop 0x12345678 (by decide) (by decide)

/-- Counterexample to C4 as stated: after one `executeCycle` of the
one-instruction program `[BR #-1]`, the single thread is still active while
its program counter is -1, which is not a valid index into instruction
memory — the branch path has no lower-bound check. -/
theorem C4_negative_pc_active_counterexample :
    (Fixtures.firstThread
      (ExecutionEngine.executeCycle (Fixtures.engine (some 10) [Fixtures.brM1Word])).2).pc = -1
    ∧ (Fixtures.firstThread
      (ExecutionEngine.executeCycle (Fixtures.engine (some 10) [Fixtures.brM1Word])).2).active = true := by
  exact ⟨by decide, by decide⟩

/-- C4, amended: the only pc/active guard the code enforces is at fetch
time, in one direction — a thread processed with `pc ≥ instruction-memory
length` is deactivated without fetching or executing anything (its pc and
registers unchanged, every other component untouched). An active thread's
pc may still leave `[0, length)` after a cycle: a backward branch can make
it negative (see the counterexample), and negative pcs never deactivate. -/
theorem C4_amended_pc_overrun_deactivates (config : MemoryConfig)
    (imem : List Nat) (ctx : ExecutionEngine.CycleCtx) (t : ThreadState)
    (h : (imem.length : Int) ≤ t.pc) :
    ExecutionEngine.processThread config imem ctx t =
      ({ t with active := false }, ctx) := by
  unfold ExecutionEngine.processThread
  rw [if_pos h]

/-- Witness for the amended C4: an empty program and the fixture thread at
pc 0. -/
theorem C4_amended_pc_overrun_deactivates_witness :
    ExecutionEngine.processThread Fixtures.memCfg [] Fixtures.emptyCtx Fixtures.thread0 =
      ({ Fixtures.thread0 with active := false }, Fixtures.emptyCtx) :=
  C4_amended_pc_overrun_deactivates Fixtures.memCfg [] Fixtures.emptyCtx
    Fixtures.thread0 (by decide)

/-- Counterexample to C7 as stated: out-of-range accesses are not dropped
or zeroed uniformly across the three paths. Over a 16-word memory: a queued
write to address 16 through `processRequests` is committed — the memory
array grows (JS assignment past the end extends the array) instead of
staying unchanged; a queued read of address 16 gets response data
`undefined` (`none`), not 0; and `Cache.write` at address 16 likewise
grows the memory array. -/
theorem C7_oob_not_uniform_counterexample :
    (MemoryController.processRequests
        { memory := jsZeros 16,
          pendingRequests := [{ address := 16, data := some 9, write := true,
                                threadId := 0, blockId := 0 }],
          responseQueue := Fixtures.emptyQueue }).memory ≠ jsZeros 16
    ∧ (MemoryController.processRequests
        { memory := jsZeros 16,
          pendingRequests := [{ address := 16, data := none, write := false,
                                threadId := 0, blockId := 0 }],
          responseQueue := Fixtures.emptyQueue }).responseQueue 16
        = some { data := none, valid := true }
    ∧ (Cache.write Fixtures.memCfg (Cache.init Fixtures.memCfg) 16 9 (jsZeros 16)).2
        ≠ jsZeros 16 := by
  exact ⟨by decide, by decide, by decide⟩

/-- C7, amended: the claimed out-of-range behaviour (reads return 0, writes
are dropped) holds on the direct `MemoryController.read`/`write` path only,
where the bounds check against the current array length exists; the queued
`processRequests` path and `Cache.write` commit out-of-range writes past
the configured size, and a queued out-of-range read's response data is
`undefined` rather than 0 (see the counterexample). -/
theorem C7_amended_direct_path_oob_defaults (s : MCState) (a : Nat) (v : Int)
    (h : s.memory.length ≤ a) :
    MemoryController.read s a = some 0 ∧ MemoryController.write s a v = s := by
  constructor
  · unfold MemoryController.read
    rw [if_neg (by omega)]
  · unfold MemoryController.write
    rw [if_neg (by omega)]

/-- Witness for the amended C7: the freshly constructed controller over 16
words, address 16. -/
theorem C7_amended_direct_path_oob_defaults_witness :
    MemoryController.read (MemoryController.init Fixtures.memCfg) 16 = some 0
    ∧ MemoryController.write (MemoryController.init Fixtures.memCfg) 16 9 =
        MemoryController.init Fixtures.memCfg :=
  C7_amended_direct_path_oob_defaults (MemoryController.init Fixtures.memCfg) 16 9
    (by decide)

/-- Counterexample to C8 as stated: the cache's resident lines are not
reset. Run one cycle of the program `[LDR R0,[R0+0]]` (the load miss makes
cache line 0 valid), then `reset()`: line 0 is still valid, whereas the
freshly constructed engine's line 0 is invalid — so a post-reset read can
hit a stale line instead of missing like a fresh cache would. -/
theorem C8_cache_lines_survive_reset :
    ((ExecutionEngine.reset
        (ExecutionEngine.executeCycle (Fixtures.engine (some 10) [Fixtures.ldrWord])).2).cache.lines.getD
        0 default).valid = true
    ∧ ((ExecutionEngine.init { memory := Fixtures.memCfg, maxCycles := some 10 }).cache.lines.getD
        0 default).valid = false := by
  exact ⟨by decide, by decide⟩

/-- C8, amended: `reset()` zeroes the cycle counter, empties the scheduler,
clears every register, zeroes the engine's memory array and zeroes the
cache hit/miss counters, while the loaded instruction memory survives — but
the cache's resident lines also survive (they are not reset; see the
counterexample), and the memory controller's own state is untouched. -/
theorem C8_amended_reset_effects (s : EngineState) :
    (ExecutionEngine.reset s).cycle = 0
    ∧ (ExecutionEngine.reset s).sched = ThreadScheduler.init
    ∧ (ExecutionEngine.reset s).regfile = RegisterFile.empty
    ∧ (ExecutionEngine.reset s).memory = jsZeros s.memory.length
    ∧ (ExecutionEngine.reset s).cache.hits = 0
    ∧ (ExecutionEngine.reset s).cache.misses = 0
    ∧ (ExecutionEngine.reset s).cache.lines = s.cache.lines
    ∧ (ExecutionEngine.reset s).instructionMemory = s.instructionMemory
    ∧ (ExecutionEngine.reset s).mc = s.mc
    ∧ (ExecutionEngine.reset s).config = s.config
    ∧ (ExecutionEngine.reset s).maxCycles = s.maxCycles := by
  exact ⟨rfl, rfl, rfl, rfl, rfl, rfl, rfl, rfl, rfl, rfl, rfl⟩

/-- Bound check: at or past the cycle bound, `executeCycle` refuses without
touching the state. -/
theorem executeCycle_at_bound (s : EngineState) (h : s.maxCycles ≤ s.cycle) :
    ExecutionEngine.executeCycle s = (false, s) := by
  unfold ExecutionEngine.executeCycle
  rw [if_pos h]

/-- A true `executeCycle` advances the cycle counter by exactly one, leaves
the bound unchanged, and only happens strictly below the bound. -/
theorem executeCycle_true_step (s : EngineState)
    (h : (ExecutionEngine.executeCycle s).1 = true) :
    (ExecutionEngine.executeCycle s).2.cycle = s.cycle + 1
    ∧ (ExecutionEngine.executeCycle s).2.maxCycles = s.maxCycles
    ∧ s.cycle < s.maxCycles := by
  unfold ExecutionEngine.executeCycle at h ⊢
  by_cases hb : s.maxCycles ≤ s.cycle
  · rw [if_pos hb] at h
    simp at h
  · rw [if_neg hb] at h ⊢
    cases hwarp : ThreadScheduler.getNextWarp s.sched with
    | none =>
        rw [hwarp] at h
        simp at h
    | some p =>
        exact ⟨rfl, rfl, by omega⟩

/-- With fuel exceeding `maxCycles - cycle`, the fuelled run loop is
fuel-independent and makes at most `maxCycles - cycle + 1` calls to
`executeCycle` — the loop always reaches a `false` return before the fuel
does. -/
theorem runFuel_spec (f : Nat) : ∀ (s : EngineState), s.cycle ≤ s.maxCycles →
    s.maxCycles - s.cycle < f →
    (ExecutionEngine.runFuel f s).2 ≤ s.maxCycles - s.cycle + 1
    ∧ ∀ f', s.maxCycles - s.cycle < f' →
        ExecutionEngine.runFuel f' s = ExecutionEngine.runFuel f s := by
  induction f with
  | zero => intro s h1 h2; omega
  | succ f ih =>
    intro s h1 h2
    by_cases hr : (ExecutionEngine.executeCycle s).1 = true
    · obtain ⟨hc, hm, hlt⟩ := executeCycle_true_step s hr
      have h1' : (ExecutionEngine.executeCycle s).2.cycle ≤
          (ExecutionEngine.executeCycle s).2.maxCycles := by omega
      have h2' : (ExecutionEngine.executeCycle s).2.maxCycles -
          (ExecutionEngine.executeCycle s).2.cycle < f := by omega
      obtain ⟨ihb, ihe⟩ := ih (ExecutionEngine.executeCycle s).2 h1' h2'
      constructor
      · show (ExecutionEngine.runFuel (f + 1) s).2 ≤ _
        simp only [ExecutionEngine.runFuel, hr, if_true]
        omega
      · intro f' hf'
        match f', hf' with
        | f'' + 1, hf' =>
          simp only [ExecutionEngine.runFuel, hr, if_true]
          have he := ihe f'' (by omega)
          rw [he]
    · have hrf : (ExecutionEngine.executeCycle s).1 = false := by
        revert hr; cases (ExecutionEngine.executeCycle s).1 <;> simp
      constructor
      · simp [ExecutionEngine.runFuel, hrf]
      · intro f' hf'
        match f', hf' with
        | f'' + 1, hf' =>
          simp [ExecutionEngine.runFuel, hrf]

/-- Counterexample to C6's call count as stated: with `maxCycles = 1` and
the non-terminating program `[BR #-1]`, `run()` makes 2 calls to
`executeCycle` — the bounded cycle plus the final refused call — exceeding
`maxCycles` calls. -/
theorem C6_run_calls_exceed_maxCycles :
    (ExecutionEngine.run (Fixtures.engine (some 1) [Fixtures.brM1Word])).2 = 2
    ∧ (Fixtures.engine (some 1) [Fixtures.brM1Word]).maxCycles = 1 := by
  exact ⟨by decide, by decide⟩

/-- C6, amended: `run()` terminates for every program, configuration and
bound — the fuelled loop is fuel-independent above `maxCycles - cycle`
fuel, so it equals the source's unbounded `while` loop — making at most
`maxCycles - cycle + 1` calls to `executeCycle` (at most `maxCycles` of
which execute a cycle, plus the final refused call); reaching the bound is
reported by `executeCycle` returning `false` with the state untouched, not
by an exception. -/
theorem C6_amended_run_terminates_bounded (s : EngineState)
    (h : s.cycle ≤ s.maxCycles) :
    (ExecutionEngine.run s).2 ≤ s.maxCycles - s.cycle + 1
    ∧ (∀ f, s.maxCycles - s.cycle < f →
        ExecutionEngine.runFuel f s = ExecutionEngine.run s)
    ∧ (∀ s', s'.maxCycles ≤ s'.cycle →
        ExecutionEngine.executeCycle s' = (false, s')) := by
  have hs := runFuel_spec (s.maxCycles - s.cycle + 1) s h (by omega)
  exact ⟨hs.1, fun f hf => hs.2 f hf, fun s' hb => executeCycle_at_bound s' hb⟩

/-- Witness for the amended C6: the fixture engine with bound 2 running
`[BR #-1]` makes at most 3 calls, and a state at its bound refuses. -/
theorem C6_amended_run_terminates_bounded_witness :
    (ExecutionEngine.run (Fixtures.engine (some 2) [Fixtures.brM1Word])).2 ≤ 3 :=
  (C6_amended_run_terminates_bounded (Fixtures.engine (some 2) [Fixtures.brM1Word])
    (by decide)).1

/-- Loading a line never touches the hit counter. -/
theorem Cache.loadLine_hits (config : MemoryConfig) (c : CacheState) (a : Nat)
    (m : JSMem) : (Cache.loadLine config c a m).1.hits = c.hits := rfl

/-- Loading a line never touches the miss counter. -/
theorem Cache.loadLine_misses (config : MemoryConfig) (c : CacheState) (a : Nat)
    (m : JSMem) : (Cache.loadLine config c a m).1.misses = c.misses := rfl

/-- Every single cache access bumps exactly one of the two counters by one. -/
theorem applyCacheOp_counts (config : MemoryConfig) (s : CacheState × JSMem)
    (op : CacheOp) :
    (applyCacheOp config s op).1.hits + (applyCacheOp config s op).1.misses
      = s.1.hits + s.1.misses + 1 := by
  obtain ⟨c, m⟩ := s
  cases op with
  | read a =>
      simp only [applyCacheOp, Cache.read]
      split
      · simp; omega
      · simp [Cache.loadLine_hits, Cache.loadLine_misses]
        omega
  | write a v =>
      simp only [applyCacheOp, Cache.write]
      split
      · simp; omega
      · simp [Cache.loadLine_hits, Cache.loadLine_misses]
        omega

/-- Counting over a whole access sequence. -/
theorem applyCacheOps_counts (config : MemoryConfig) (ops : List CacheOp) :
    ∀ (s : CacheState × JSMem),
    (applyCacheOps config ops s).1.hits + (applyCacheOps config ops s).1.misses
      = s.1.hits + s.1.misses + ops.length := by
  induction ops with
  | nil => intro s; simp [applyCacheOps]
  | cons op rest ih =>
      intro s
      have h1 := applyCacheOp_counts config s op
      have h2 := ih (applyCacheOp config s op)
      simp only [applyCacheOps, List.foldl_cons, List.length_cons] at h2 ⊢
      omega

/-- The reported hit rate always lies in `[0, 1]`. -/
theorem getStats_hitRate_bounds (c : CacheState) :
    0 ≤ (Cache.getStats c).hitRate ∧ (Cache.getStats c).hitRate ≤ 1 := by
  unfold Cache.getStats
  constructor
  · dsimp only
    split_ifs with h
    · positivity
    · exact le_refl 0
  · dsimp only
    split_ifs with h
    · rw [div_le_one (by exact_mod_cast h)]
      exact_mod_cast Nat.le_add_right c.hits c.misses
    · exact zero_le_one

/-- C10. Confirmed: every `Cache.read`/`Cache.write` call increments exactly
one of the hit and miss counters by one, so after any access sequence
`hits + misses` equals the starting total plus the number of calls (the
start being 0 both at construction and after `resetStats`), and `getStats`
reports exactly the counters with `hitRate = hits/(hits+misses)` when the
total is positive and 0 otherwise — hence always within `[0, 1]`. -/
theorem C10_cache_stats_invariant (config : MemoryConfig) (ops : List CacheOp)
    (c : CacheState) (m : JSMem) :
    ((applyCacheOps config ops (c, m)).1.hits + (applyCacheOps config ops (c, m)).1.misses
        = c.hits + c.misses + ops.length)
    ∧ (Cache.getStats (applyCacheOps config ops (c, m)).1).hits
        = (applyCacheOps config ops (c, m)).1.hits
    ∧ (Cache.getStats (applyCacheOps config ops (c, m)).1).misses
        = (applyCacheOps config ops (c, m)).1.misses
    ∧ (Cache.getStats (applyCacheOps config ops (c, m)).1).hitRate
        = (if 0 < (applyCacheOps config ops (c, m)).1.hits + (applyCacheOps config ops (c, m)).1.misses
           then ((applyCacheOps config ops (c, m)).1.hits : ℚ) /
             (((applyCacheOps config ops (c, m)).1.hits + (applyCacheOps config ops (c, m)).1.misses : Nat) : ℚ)
           else 0)
    ∧ 0 ≤ (Cache.getStats (applyCacheOps config ops (c, m)).1).hitRate
    ∧ (Cache.getStats (applyCacheOps config ops (c, m)).1).hitRate ≤ 1
    ∧ (Cache.init config).hits = 0 ∧ (Cache.init config).misses = 0
    ∧ (Cache.resetStats c).hits = 0 ∧ (Cache.resetStats c).misses = 0 := by
  refine ⟨applyCacheOps_counts config ops (c, m), rfl, rfl, rfl,
    (getStats_hitRate_bounds _).1, (getStats_hitRate_bounds _).2, rfl, rfl, rfl, rfl⟩

namespace MemoryController

/-- Committing a read request leaves memory alone and records the current
memory word at its address. -/
theorem commit_read (mem : JSMem) (rq : ResponseQueue) (r : MemoryRequest)
    (h : r.write = false) :
    commit mem rq r =
      (mem, fun k => if k = getRequestId r
        then some { data := jsGet mem r.address, valid := true } else rq k) := by
  simp [commit, h]

/-- Committing a list of read requests with pairwise-distinct ids one by one
leaves memory alone, touches no other key, and answers each request with the
memory word at its address. -/
theorem commitAll_reads (l : List MemoryRequest) :
    ∀ (mem : JSMem) (rq : ResponseQueue),
    (∀ r ∈ l, r.write = false) →
    l.Pairwise (fun a b => getRequestId a ≠ getRequestId b) →
    (commitAll l mem rq).1 = mem
    ∧ (∀ k, (∀ r ∈ l, getRequestId r ≠ k) → (commitAll l mem rq).2 k = rq k)
    ∧ (∀ r ∈ l, (commitAll l mem rq).2 (getRequestId r)
        = some { data := jsGet mem r.address, valid := true }) := by
  induction l with
  | nil =>
      intro mem rq _ _
      exact ⟨rfl, fun k _ => rfl, fun r hr => absurd hr (List.not_mem_nil r)⟩
  | cons a l ih =>
      intro mem rq hreads hdist
      have ha : a.write = false := hreads a (by simp)
      have hl : ∀ r ∈ l, r.write = false := fun r hr => hreads r (by simp [hr])
      have hdl := List.Pairwise.of_cons hdist
      have hhead : ∀ r ∈ l, getRequestId a ≠ getRequestId r :=
        (List.pairwise_cons.mp hdist).1
      have hstep : commitAll (a :: l) mem rq =
          commitAll l mem (fun k => if k = getRequestId a
            then some { data := jsGet mem a.address, valid := true } else rq k) := by
        simp only [commitAll, List.foldl_cons, commit_read mem rq a ha]
      rw [hstep]
      obtain ⟨h1, h2, h3⟩ := ih mem _ hl hdl
      refine ⟨h1, ?_, ?_⟩
      · intro k hk
        rw [h2 k (fun r hr => hk r (by simp [hr]))]
        rw [if_neg ?_]
        exact fun hc => (hk a (by simp)) hc.symm
      · intro r hr
        rcases List.mem_cons.mp hr with hra | hrl
        · subst hra
          rw [h2 (getRequestId r) (fun x hx => (hhead x hx).symm)]
          rw [if_pos rfl]
        · exact h3 r hrl

/-- The coalescing scan followed by the commit of the surviving group
leaders, on a batch of read requests with pairwise-distinct ids (including
the group state carried in): memory is left alone, no other key is touched,
and every request — scanned, pending leader or current — is answered with
the memory word at its address. -/
theorem processLoop_commitAll_reads (l : List MemoryRequest) :
    ∀ (cur : Option MemoryRequest) (coal : List MemoryRequest)
      (mem : JSMem) (rq : ResponseQueue),
    (∀ r ∈ l ++ coal ++ cur.toList, r.write = false) →
    (l ++ coal ++ cur.toList).Pairwise
      (fun a b => getRequestId a ≠ getRequestId b) →
    (commitAll (processLoop l cur coal mem rq).1
        (processLoop l cur coal mem rq).2.1 (processLoop l cur coal mem rq).2.2).1 = mem
    ∧ (∀ k, (∀ r ∈ l ++ coal ++ cur.toList, getRequestId r ≠ k) →
        (commitAll (processLoop l cur coal mem rq).1
          (processLoop l cur coal mem rq).2.1 (processLoop l cur coal mem rq).2.2).2 k = rq k)
    ∧ (∀ r ∈ l ++ coal ++ cur.toList,
        (commitAll (processLoop l cur coal mem rq).1
          (processLoop l cur coal mem rq).2.1 (processLoop l cur coal mem rq).2.2).2
          (getRequestId r)
        = some { data := jsGet mem r.address, valid := true }) := by
  induction l with
  | nil =>
      intro cur coal mem rq hreads hdist
      simp only [processLoop]
      have h := commitAll_reads (coal ++ cur.toList) mem rq
        (by intro r hr; exact hreads r (by simpa using hr))
        (by simpa using hdist)
      refine ⟨h.1, ?_, ?_⟩
      · intro k hk
        exact h.2.1 k (fun r hr => hk r (by simpa using hr))
      · intro r hr
        exact h.2.2 r (by simpa using hr)
  | cons a l ih =>
      intro cur coal mem rq hreads hdist
      cases cur with
      | none =>
          have hperm : (l ++ coal ++ [a]).Perm ((a :: l) ++ coal ++ []) := by
            simpa using List.perm_append_singleton a (l ++ coal)
          have ih' := ih (some a) coal mem rq
            (by intro r hr; exact hreads r (hperm.mem_iff.mp (by simpa using hr)))
            (by exact (hperm.pairwise_iff (fun h => Ne.symm h)).mpr (by simpa using hdist))
          simp only [processLoop]
          refine ⟨ih'.1, ?_, ?_⟩
          · intro k hk
            exact ih'.2.1 k (fun r hr => hk r (hperm.mem_iff.mp (by simpa using hr)))
          · intro r hr
            exact ih'.2.2 r (by
              have : r ∈ (a :: l) ++ coal ++ ([] : List MemoryRequest) := by simpa using hr
              simpa using hperm.mem_iff.mpr this)
      | some c =>
          by_cases hco : canCoalesce c a = true
          · -- the head coalesces into the current group and commits now
            have ha : a.write = false := hreads a (by simp)
            have hstep : processLoop (a :: l) (some c) coal mem rq =
                processLoop l (some c) coal mem
                  (fun k => if k = getRequestId a
                    then some { data := jsGet mem a.address, valid := true } else rq k) := by
              simp only [processLoop, hco, if_true, commit_read mem rq a ha]
            rw [hstep]
            have hcons : (a :: l) ++ coal ++ (some c).toList
                = a :: (l ++ coal ++ (some c).toList) := by simp
            rw [hcons] at hreads hdist
            have hhead : ∀ r ∈ l ++ coal ++ (some c).toList,
                getRequestId a ≠ getRequestId r := (List.pairwise_cons.mp hdist).1
            have ih' := ih (some c) coal mem
              (fun k => if k = getRequestId a
                then some { data := jsGet mem a.address, valid := true } else rq k)
              (fun r hr => hreads r (List.mem_cons_of_mem a hr))
              (List.Pairwise.of_cons hdist)
            refine ⟨ih'.1, ?_, ?_⟩
            · intro k hk
              rw [hcons] at hk
              rw [ih'.2.1 k (fun r hr => hk r (List.mem_cons_of_mem a hr))]
              exact if_neg (fun hc => (hk a (by simp)) hc.symm)
            · intro r hr
              rw [hcons] at hr
              rcases List.mem_cons.mp hr with hra | hrl
              · subst hra
                rw [ih'.2.1 (getRequestId r) (fun x hx => (hhead x hx).symm)]
                exact if_pos rfl
              · exact ih'.2.2 r hrl
          · -- the current leader is parked; the head starts a new group
            have hstep : processLoop (a :: l) (some c) coal mem rq =
                processLoop l (some a) (coal ++ [c]) mem rq := by
              simp [processLoop, hco]
            rw [hstep]
            have hperm : (l ++ (coal ++ [c]) ++ [a]).Perm
                ((a :: l) ++ coal ++ (some c).toList) := by
              simpa [List.append_assoc] using
                List.perm_append_singleton a (l ++ (coal ++ [c]))
            have ih' := ih (some a) (coal ++ [c]) mem rq
              (by intro r hr; exact hreads r (hperm.mem_iff.mp (by simpa using hr)))
              ((hperm.pairwise_iff (fun h => Ne.symm h)).mpr hdist)
            refine ⟨ih'.1, ?_, ?_⟩
            · intro k hk
              exact ih'.2.1 k (fun r hr => hk r (hperm.mem_iff.mp (by simpa using hr)))
            · intro r hr
              exact ih'.2.2 r (by simpa using hperm.mem_iff.mpr hr)

/-- Counterexample to C3 as stated: two writes to the same address (data 1
from thread 0, then data 2 from thread 1). One-by-one servicing ends with
memory holding 2, the last write. `processRequests` coalesces the second
write into the first's group and commits it during the scan, then commits
the group leader afterwards — so the first write lands last and memory ends
holding 1. The final memory states differ. -/
theorem C3_coalescing_reorders_same_address_writes :
    jsGet (processRequests
        { memory := jsZeros 4,
          pendingRequests := [Fixtures.writeReqA, Fixtures.writeReqB],
          responseQueue := Fixtures.emptyQueue }).memory 0 = some 1
    ∧ jsGet (serviceIndividually [Fixtures.writeReqA, Fixtures.writeReqB]
        (jsZeros 4) Fixtures.emptyQueue).1 0 = some 2
    ∧ (processRequests
        { memory := jsZeros 4,
          pendingRequests := [Fixtures.writeReqA, Fixtures.writeReqB],
          responseQueue := Fixtures.emptyQueue }).memory
      ≠ (serviceIndividually [Fixtures.writeReqA, Fixtures.writeReqB]
        (jsZeros 4) Fixtures.emptyQueue).1 := by
  exact ⟨by decide, by decide, by decide⟩

/-- C3, amended: for batches of read requests with pairwise-distinct
synthetic ids, `processRequests` is equivalent to servicing the requests
one by one — memory is unchanged on both paths and every request's id gets
the same response. With writes in the batch, coalescing can commit a merged
request's write before its group leader's, so two writes within 4 words of
each other can land in the wrong order and change the final memory (see the
counterexample). -/
theorem C3_amended_read_only_coalescing_safe (mem : JSMem)
    (reqs : List MemoryRequest) (rq0 : ResponseQueue)
    (hreads : ∀ r ∈ reqs, r.write = false)
    (hdist : reqs.Pairwise (fun a b => getRequestId a ≠ getRequestId b)) :
    (processRequests
        { memory := mem, pendingRequests := reqs, responseQueue := rq0 }).memory = mem
    ∧ (serviceIndividually reqs mem rq0).1 = mem
    ∧ ∀ r ∈ reqs,
        (processRequests
          { memory := mem, pendingRequests := reqs, responseQueue := rq0 }).responseQueue
          (getRequestId r)
        = (serviceIndividually reqs mem rq0).2 (getRequestId r) := by
  have hperm : (sortByAddress reqs).Perm reqs := List.perm_insertionSort _ reqs
  have hr' : ∀ r ∈ sortByAddress reqs ++ [] ++ (none : Option MemoryRequest).toList,
      r.write = false := by
    intro r hr
    exact hreads r (hperm.mem_iff.mp (by simpa using hr))
  have hd' : (sortByAddress reqs ++ [] ++ (none : Option MemoryRequest).toList).Pairwise
      (fun a b => getRequestId a ≠ getRequestId b) := by
    simpa using (hperm.pairwise_iff (fun h => Ne.symm h)).mpr hdist
  have hmain := processLoop_commitAll_reads (sortByAddress reqs) none [] mem rq0 hr' hd'
  have hserv := commitAll_reads reqs mem rq0 hreads hdist
  refine ⟨hmain.1, hserv.1, ?_⟩
  intro r hr
  have h1 := hmain.2.2 r (by simpa using hperm.mem_iff.mpr hr)
  have h2 := hserv.2.2 r hr
  exact h1.trans h2.symm

/-- Witness for the amended C3: a two-read batch (addresses 0 and 5, threads
0 and 1) over an 8-word zero memory. -/
theorem C3_amended_read_only_coalescing_safe_witness :
    (processRequests
        { memory := jsZeros 8,
          pendingRequests := [Fixtures.readReqA, Fixtures.readReqB],
          responseQueue := Fixtures.emptyQueue }).memory = jsZeros 8
    ∧ (serviceIndividually [Fixtures.readReqA, Fixtures.readReqB]
        (jsZeros 8) Fixtures.emptyQueue).1 = jsZeros 8 :=
  ⟨(C3_amended_read_only_coalescing_safe (jsZeros 8)
      [Fixtures.readReqA, Fixtures.readReqB] Fixtures.emptyQueue
      (by decide) (by decide)).1,
   (C3_amended_read_only_coalescing_safe (jsZeros 8)
      [Fixtures.readReqA, Fixtures.readReqB] Fixtures.emptyQueue
      (by decide) (by decide)).2.1⟩

end MemoryController

end GpuSim
